import Mathlib

/-!
Verification of the `ya_editor` core: the markup zone scanner (`_find_zones`),
the markup-aware splitter (`_smart_split`), the retry/backoff policy
(`error_delay`, `_RETRY_CONFIG`) and the sequential batch runner
(`_editor_chunk_with_retry` / `_yandex_editor_batch`).

Texts are embedded as `List Char` (Python `str` positions are code points);
positions in the splitter are `Int` because the Python code can drive its
cursor and split positions below zero, where Python's negative indexing and
slice-clamping semantics apply; those semantics are embedded explicitly
(`pyGetD`, `pySlice`).  Loops are embedded with explicit fuel that is chosen
large enough for the loop's own bound wherever the Python loop terminates;
the top-level splitter keeps its fuel as a parameter because one claim
concerns its termination.
-/

set_option maxHeartbeats 1000000

namespace YaEditor

/-- Null character used as the out-of-range default for `List.getD`.
Python would raise `IndexError` there; the embedded code only reads
positions Python reads. -/
def nullChar : Char := Char.ofNat 0

/-- The backtick character (written via its code point). -/
def bq : Char := Char.ofNat 96

/-- The three-backtick fence delimiter. -/
def fenceTag : List Char := [bq, bq, bq]

/-- `_ProtectedZone` from `_utils.py` (field `end` is `endPos`,
Lean reserves `end`). -/
structure ProtectedZone where
  start : Nat
  endPos : Nat
  openTag : List Char
  closeTag : List Char
  requireNewline : Bool := false
  atomic : Bool := false
  deriving Repr, DecidableEq

/-- A default zone, used only as the `List.getD` fallback in statements. -/
def defaultZone : ProtectedZone := ⟨0, 0, [], [], false, false⟩

/-- Length of the run of consecutive backslashes immediately before
position `i` (the counting loop of `_is_escaped`). -/
def backslashRun (text : List Char) : Nat → Nat
  | 0 => 0
  | i + 1 => if text.getD i nullChar == '\\' then backslashRun text i + 1 else 0

/-- `_is_escaped(text, index)`: the character at `index` is escaped iff an
odd number of consecutive backslashes immediately precedes it. -/
def is_escaped (text : List Char) (index : Nat) : Bool :=
  backslashRun text index % 2 == 1

/-- `_is_escaped` at a possibly negative index (as called from
`_smart_split`): for `index <= 0` the Python counting range is empty. -/
def isEscapedI (text : List Char) (index : Int) : Bool :=
  if index ≤ 0 then false else is_escaped text index.toNat

/-- Python `text.find(pat, s)`: least `i ≥ s` with `pat` occurring at `i`
(fuel-recursive; `none` is Python's `-1`). -/
def findFromAux (text pat : List Char) : Nat → Nat → Option Nat
  | 0, _ => none
  | fuel + 1, s =>
    if s + pat.length ≤ text.length then
      if pat.isPrefixOf (text.drop s) then some s else findFromAux text pat fuel (s + 1)
    else none

/-- Python `text.find(pat, s)`; fuel `text.length + 1` always suffices since
the scan position grows by one per step and is bounded by the length. -/
def findFrom (text pat : List Char) (s : Nat) : Option Nat :=
  findFromAux text pat (text.length + 1) s

/-- The retry loop of `_find_closing_tag`: repeatedly `find` the tag and skip
escaped occurrences. -/
def findClosingTagAux (text tag : List Char) : Nat → Nat → Option Nat
  | 0, _ => none
  | fuel + 1, s =>
    match findFrom text tag s with
    | none => none
    | some idx =>
      if is_escaped text idx then findClosingTagAux text tag fuel (idx + 1)
      else some (idx + tag.length)

/-- `_find_closing_tag(text, start_pos, tag)`: position just after the first
unescaped occurrence of `tag` at or after `start_pos` (`none` is `-1`).
Each iteration advances the search position, so fuel `text.length + 1`
suffices. -/
def find_closing_tag (text : List Char) (startPos : Nat) (tag : List Char) : Option Nat :=
  findClosingTagAux text tag (text.length + 1) startPos

/-- Fenced-block branch of `_find_zones`: the zone's `openTag` is the first
line of the block (`text[start:end]` up to its first newline), or bare
` ``` ` when the block has no newline. -/
def fenceOpenTag (text : List Char) (start endPos : Nat) : List Char :=
  let block := (text.drop start).take (endPos - start)
  match findFrom block ['\n'] 0 with
  | some k => block.take k
  | none => fenceTag

/-- The ` ``` ` branch of `_find_zones` at position `i`. -/
def scanFence (text : List Char) (i : Nat) : Option ProtectedZone :=
  if fenceTag.isPrefixOf (text.drop i) then
    match find_closing_tag text (i + 3) fenceTag with
    | some e => some ⟨i, e, fenceOpenTag text i e, fenceTag, true, false⟩
    | none => none
  else none

/-- The inline-code branch of `_find_zones` at position `i`. -/
def scanInline (text : List Char) (i : Nat) : Option ProtectedZone :=
  if text.getD i nullChar == bq then
    (find_closing_tag text (i + 1) [bq]).map (fun e => ⟨i, e, [bq], [bq], false, true⟩)
  else none

/-- The `[text](url)` branch of `_find_zones` at position `i`. -/
def scanLink (text : List Char) (i : Nat) : Option ProtectedZone :=
  if text.getD i nullChar == '[' then
    match find_closing_tag text (i + 1) [']'] with
    | some tEnd =>
      if tEnd < text.length && text.getD tEnd nullChar == '(' then
        (find_closing_tag text (tEnd + 1) [')']).map (fun e => ⟨i, e, [], [], false, true⟩)
      else none
    | none => none
  else none

/-- Formatting-marker selection of `_find_zones` (`*`, `_`, `__`, `~`, `||`);
`[]` means no marker starts at `i`. -/
def fmtTag (text : List Char) (i : Nat) : List Char :=
  if text.getD i nullChar == '*' then ['*']
  else if text.getD i nullChar == '_' then
    if i + 1 < text.length && text.getD (i + 1) nullChar == '_' then ['_', '_'] else ['_']
  else if text.getD i nullChar == '~' then ['~']
  else if text.getD i nullChar == '|' &&
      (decide (i + 1 < text.length) && (text.getD (i + 1) nullChar == '|')) then ['|', '|']
  else []

/-- The formatting-marker branch of `_find_zones` at position `i`. -/
def scanFmt (text : List Char) (i : Nat) : Option ProtectedZone :=
  if (fmtTag text i).isEmpty then none
  else (find_closing_tag text (i + (fmtTag text i).length) (fmtTag text i)).map
    (fun e => ⟨i, e, fmtTag text i, fmtTag text i, false, false⟩)

/-- One position of the `_find_zones` scan: the four zone branches in source
order, each falling through to the next exactly when it fails. -/
def scanZone (text : List Char) (i : Nat) : Option ProtectedZone :=
  match scanFence text i with
  | some z => some z
  | none =>
    match scanInline text i with
    | some z => some z
    | none =>
      match scanLink text i with
      | some z => some z
      | none => scanFmt text i

/-- The main loop of `_find_zones`: skip escape pairs, otherwise try the zone
branches; on a match resume after the zone's end, else advance one. -/
def findZonesAux (text : List Char) : Nat → Nat → List ProtectedZone
  | 0, _ => []
  | fuel + 1, i =>
    if i < text.length then
      if text.getD i nullChar == '\\' then findZonesAux text fuel (i + 2)
      else
        match scanZone text i with
        | some z => z :: findZonesAux text fuel z.endPos
        | none => findZonesAux text fuel (i + 1)
    else []

/-- `_find_zones(text)`: the scan position strictly increases each step, so
fuel `text.length + 1` suffices. -/
def find_zones (text : List Char) : List ProtectedZone :=
  findZonesAux text (text.length + 1) 0

/-! ### `_smart_split`

The splitter's cursor arithmetic is on Python `int`s and is embedded over
`Int`; `pyGetD` and `pySlice` embed Python's negative indexing and slice
clamping, which the splitter reaches when its split position is driven
below the cursor. -/

/-- Python `text[i]` (negative indices count from the end; out-of-range
reads, which Python turns into `IndexError`, give `nullChar`). -/
def pyGetD (text : List Char) (i : Int) : Char :=
  if i < 0 then text.getD (i + text.length).toNat nullChar
  else text.getD i.toNat nullChar

/-- Python slice normalisation: clamp `i` into `[0, n]`, counting negative
values from the end. -/
def pyNormIdx (n : Nat) (i : Int) : Nat :=
  if i < 0 then (max (i + n) 0).toNat else (min i n).toNat

/-- Python `text[a:b]`. -/
def pySlice (text : List Char) (a b : Int) : List Char :=
  let na := pyNormIdx text.length a
  let nb := pyNormIdx text.length b
  (text.drop na).take (nb - na)

/-- `effectiveMax`: the length budget of the next chunk after reserving the
pending reopening markup, with the fixed fallback `100` guarding a
non-positive budget. -/
def effMax (maxLength : Int) (pendPre : List Char) : Int :=
  let e := maxLength - pendPre.length
  if e ≤ 0 then 100 else e

/-- The backslash walk of `_smart_split`: step the split position back over a
trailing unescaped backslash while one is there (fuel-recursive; the walk
is bounded by `split_pos - current_pos`). -/
def walkBackAux (text : List Char) (cp : Int) : Nat → Int → Int
  | 0, sp => sp
  | fuel + 1, sp =>
    if cp < sp && (pyGetD text (sp - 1) == '\\' && !isEscapedI text (sp - 1)) then
      walkBackAux text cp fuel (sp - 1)
    else sp

/-- The zone membership test of `_smart_split`:
`z.start < split_pos < z.end`. -/
def zonePred (sp : Int) (z : ProtectedZone) : Bool :=
  decide ((z.start : Int) < sp) && decide (sp < (z.endPos : Int))

/-- `active_zone`: the first zone (in scan order) whose span strictly
contains the split position. -/
def zoneActive (zones : List ProtectedZone) (sp : Int) : Option ProtectedZone :=
  zones.find? (zonePred sp)

/-- The zone-adjustment step of `_smart_split`: returns the adjusted split
position, the closing `suffix` for this chunk and the reopening markup for
the next chunk. An atomic zone starting after the cursor pulls the split
back to its start; a non-atomic zone is closed and reopened, stepping the
split back by the suffix length when the suffix would not fit the budget. -/
def zoneAdjust (zones : List ProtectedZone) (cp em sp : Int) : Int × List Char × List Char :=
  match zoneActive zones sp with
  | none => (sp, [], [])
  | some z =>
    if z.atomic then
      if cp < (z.start : Int) then ((z.start : Int), [], []) else (sp, [], [])
    else
      let suf := if z.requireNewline then '\n' :: z.closeTag else z.closeTag
      let npre := if z.requireNewline then z.openTag ++ ['\n'] else z.openTag
      let sp' := if cp + em < sp + suf.length then sp - suf.length else sp
      (sp', suf, npre)

/-- The backward nice-boundary search of `_smart_split`: walk `i` down from
the split position to the lookback limit, skipping unescaped backslashes; a
newline just before `i` is taken immediately, the first space is remembered
but the search continues. Returns `(best_split, found_nice_split)`. -/
def bestSplitAux (text : List Char) (lim : Int) : Nat → Int → Int → Bool → Int × Bool
  | 0, _, best, found => (best, found)
  | fuel + 1, i, best, found =>
    if i ≤ lim then (best, found)
    else if pyGetD text (i - 1) == '\\' && !isEscapedI text (i - 1) then
      bestSplitAux text lim fuel (i - 1) best found
    else if pyGetD text (i - 1) == '\n' then (i, true)
    else if pyGetD text (i - 1) == ' ' && !found then
      bestSplitAux text lim fuel (i - 1) i true
    else bestSplitAux text lim fuel (i - 1) best found

/-- The split-position computation of one `_smart_split` iteration (the
non-final case): tentative position, backslash walk, zone adjustment,
backward nice-boundary search. Returns `(split_pos, suffix, next_prefix)`. -/
def splitCore (text : List Char) (zones : List ProtectedZone) (maxLength cp : Int)
    (pendPre : List Char) : Int × List Char × List Char :=
  let em := effMax maxLength pendPre
  let sp0 := cp + em
  let sp1 := walkBackAux text cp (em.toNat + 1) sp0
  let a := zoneAdjust zones cp em sp1
  let lim := max (a.1 - 150) cp
  let b := bestSplitAux text lim ((a.1 - lim).toNat + 1) a.1 a.1 false
  (if b.2 then b.1 else a.1, a.2.1, a.2.2)

/-- One emitted chunk of `_smart_split`, instrumented with its raw span:
the chunk string is `pre ++ raw ++ suf`, where `raw = text[cpos:spos]`. -/
structure SplitRec where
  cpos : Int
  spos : Int
  pre : List Char
  raw : List Char
  suf : List Char
  deriving Repr, DecidableEq

/-- The chunk string a `SplitRec` stands for. -/
def chunkOf (r : SplitRec) : List Char := r.pre ++ r.raw ++ r.suf

/-- Result of one `_smart_split` loop iteration: either the final chunk
(`break` after consuming the remainder) or one chunk plus the next cursor
state. -/
inductive StepRes where
  | done (r : SplitRec)
  | more (r : SplitRec) (newCp : Int) (newPre : List Char)
  deriving Repr, DecidableEq

/-- One iteration of the `_smart_split` loop body. -/
def smartSplitStep (text : List Char) (zones : List ProtectedZone) (maxLength cp : Int)
    (pendPre : List Char) : StepRes :=
  let n : Int := text.length
  let em := effMax maxLength pendPre
  if n - cp ≤ em then
    .done ⟨cp, n, pendPre, pySlice text cp n, []⟩
  else
    let a := splitCore text zones maxLength cp pendPre
    .more ⟨cp, a.1, pendPre, pySlice text cp a.1, a.2.1⟩ a.1 a.2.2

/-- The `_smart_split` loop: while the cursor is before the end of the text,
run one iteration, accumulating the emitted chunks; `none` when the given
fuel is exhausted before the loop exits. -/
def smartSplitGoAux (text : List Char) (zones : List ProtectedZone) (maxLength : Int) :
    Nat → Int → List Char → List SplitRec → Option (List SplitRec)
  | 0, _, _, _ => none
  | fuel + 1, cp, pendPre, acc =>
    if cp < (text.length : Int) then
      match smartSplitStep text zones maxLength cp pendPre with
      | .done r => some (acc ++ [r])
      | .more r newCp newPre => smartSplitGoAux text zones maxLength fuel newCp newPre (acc ++ [r])
    else some acc

/-- `_smart_split(text, max_length)`, instrumented: the emitted chunks with
their raw spans. Non-positive `max_length` falls back to `4096`. The fuel
is explicit because termination of the loop is itself under scrutiny. -/
def smartSplitRecs (text : List Char) (maxLength : Int) (fuel : Nat) : Option (List SplitRec) :=
  let ml := if maxLength ≤ 0 then 4096 else maxLength
  smartSplitGoAux text (find_zones text) ml fuel 0 [] []

/-- `_smart_split(text, max_length)`: the list of chunk strings. -/
def smart_split (text : List Char) (maxLength : Int) (fuel : Nat) : Option (List (List Char)) :=
  (smartSplitRecs text maxLength fuel).map (List.map chunkOf)

/-! ### Errors, backoff policy (`_const.py`, `error_delay`) -/

/-- A Python exception as seen by this layer: the two recognized
classifications `YandexAPIError` / `YandexRequestError` from `_const.py`,
or any other exception type (carrying its type name and message). -/
inductive PyErr where
  | api (msg : String)
  | req (msg : String)
  | other (typeName : String) (msg : String)
  deriving Repr, DecidableEq

/-- The classification of an error (its position in `_RETRY_CONFIG` /
the `except (YandexAPIError, YandexRequestError)` clauses). -/
inductive ErrClass where
  | api
  | req
  | other
  deriving Repr, DecidableEq

/-- Which classification an exception belongs to. -/
def classOf : PyErr → ErrClass
  | .api _ => .api
  | .req _ => .req
  | .other _ _ => .other

/-- Membership in `except (YandexAPIError, YandexRequestError)`. -/
def isClassified : PyErr → Bool
  | .api _ => true
  | .req _ => true
  | .other _ _ => false

/-- Python `type(exception).__name__`. -/
def errName : PyErr → String
  | .api _ => "YandexAPIError"
  | .req _ => "YandexRequestError"
  | .other n _ => n

/-- Python `str(exception)` (each exception is constructed from a single
message argument). -/
def msgOf : PyErr → String
  | .api m => m
  | .req m => m
  | .other _ m => m

/-- `_BACKOFF_FACTOR` from `_const.py`. -/
def BACKOFF_FACTOR : ℚ := 2

/-- `_MAX_RETRIES` from `_const.py`. -/
def MAX_RETRIES : Nat := 3

/-- `_RETRY_CONFIG.get(type(exception), _DEFAULT_RETRY_CONFIG)` from
`_const.py`: `(base_delay, max_delay)`, keyed by the exception's exact
type, defaulting to `(1.0, 15.0)`. Delays are exact binary floats at the
relevant magnitudes and are embedded as rationals. -/
def retryConfig : PyErr → ℚ × ℚ
  | .api _ => (1, 10)
  | .req _ => (2, 30)
  | .other _ _ => (1, 15)

/-- `error_delay(exception, attempt)` from `_utils.py`. -/
def error_delay (e : PyErr) (attempt : Nat) : ℚ × String :=
  (min ((retryConfig e).1 * BACKOFF_FACTOR ^ attempt) (retryConfig e).2, errName e)

/-! ### Per-chunk retry loop and batch runner (`_core.py`)

The remote transform is abstracted as a function from the chunk and the
zero-based attempt index to a result or a raised exception; this is the only
interface `_editor_chunk_with_retry` / `_translate_chunk_with_retry` have to
it (the backoff sleep and logging are effect-only and carry no data). -/

/-- The message of the `TypeError` Python raises on `raise None` (reached
by the retry loop only when `max_retries == 0`). -/
def raiseNoneMsg : String := "exceptions must derive from BaseException"

/-- The Python type name `TypeError`. -/
def typeErrorName : String := "TypeError"

/-- The `for attempt in range(max_retries)` loop of
`_editor_chunk_with_retry` / `_translate_chunk_with_retry`: try the
transform; a classified failure is remembered and retried, any other
exception propagates at once; when attempts run out the last classified
failure is re-raised. -/
def chunkRetryAux (tf : String → Nat → Except PyErr String) (chunk : String) :
    Nat → Nat → Option PyErr → Except PyErr String
  | 0, _, last =>
    match last with
    | some e => .error e
    | none => .error (.other typeErrorName raiseNoneMsg)
  | remaining + 1, attempt, _ =>
    match tf chunk attempt with
    | .ok v => .ok v
    | .error e =>
      if isClassified e then chunkRetryAux tf chunk remaining (attempt + 1) (some e)
      else .error e

/-- `_editor_chunk_with_retry` / `_translate_chunk_with_retry` (both have
the same control flow around their transform). -/
def chunk_with_retry (tf : String → Nat → Except PyErr String) (chunk : String)
    (maxRetries : Nat) : Except PyErr String :=
  chunkRetryAux tf chunk maxRetries 0 none

/-- The progress annotation `_yandex_editor_batch` appends on failure. -/
def progressNote (done total : Nat) : String :=
  "\n[было обработано " ++ toString done ++ "/" ++ toString total ++ " чанков]"

/-- `raise type(e)(f'{str(e)}\n[было обработано {n}/{m} чанков]')`: same
classification, message annotated with the completed count.  (Unreachable
for unclassified errors, which the batch loop does not catch.) -/
def annotate (e : PyErr) (done total : Nat) : PyErr :=
  match e with
  | .api m => .api (m ++ progressNote done total)
  | .req m => .req (m ++ progressNote done total)
  | .other n m => .other n m

/-- The chunk loop of `_yandex_editor_batch` (lines 285-304 of `_core.py`;
`_yandex_translate_batch` is identical up to message wording): process the
chunks in order, appending each successful result; a classified failure of
a chunk aborts the batch with the annotated error, an unclassified one
propagates as is. -/
def batchGo (tf : String → Nat → Except PyErr String) (maxRetries total : Nat) :
    List String → List String → Except PyErr String
  | [], acc => .ok (String.join acc)
  | c :: rest, acc =>
    match chunk_with_retry tf c maxRetries with
    | .ok v => batchGo tf maxRetries total rest (acc ++ [v])
    | .error e =>
      if isClassified e then .error (annotate e acc.length total) else .error e

/-- `_yandex_editor_batch` after splitting: run the batch over the given
chunk sequence. -/
def yandex_editor_batch_run (chunks : List String) (tf : String → Nat → Except PyErr String)
    (maxRetries : Nat) : Except PyErr String :=
  batchGo tf maxRetries chunks.length chunks []

/-! ### The built-in transforms (`_yandex_translate`, `_yandex_editor_api`)

The HTTP request (`_make_yandex_request`) is abstracted as an
`Except PyErr payload` parameter: either the JSON payload field this layer
reads, or whatever exception the request machinery raised. -/

/-- The `ValueError` message of `_detect_lang_pair` on empty input. -/
def emptyTextMsg : String := "ОШИБКА: входной текст должен быть не пустой строкой!"

/-- The Python type name `ValueError`. -/
def valueErrorName : String := "ValueError"

/-- The empty string (named so literals never directly follow names). -/
def emptyStr : String := ""

/-- The language code `ru`. -/
def ruLang : String := "ru"

/-- The language code `en`. -/
def enLang : String := "en"

/-- Python `str.lower` on the character ranges `_detect_lang_pair` tests
(ASCII and Russian Cyrillic letters). -/
def pyLowerChar (c : Char) : Char :=
  if 'A' ≤ c && c ≤ 'Z' then Char.ofNat (c.toNat + 32)
  else if 'А' ≤ c && c ≤ 'Я' then Char.ofNat (c.toNat + 32)
  else if c == 'Ё' then 'ё'
  else c

/-- The per-character counting step of `_detect_lang_pair`. -/
def langCount (p : Nat × Nat) (c : Char) : Nat × Nat :=
  if ('а' ≤ c && c ≤ 'я') || c == 'ё' then (p.1 + 1, p.2)
  else if 'a' ≤ c && c ≤ 'z' then (p.1, p.2 + 1)
  else p

/-- `_detect_lang_pair(text)`: `ValueError` on empty input, else the
dominant language (ties go to Russian) paired with the other one. -/
def detect_lang_pair (text : String) : Except PyErr (String × String) :=
  if text = "" then .error (.other valueErrorName emptyTextMsg)
  else if ((text.data.map pyLowerChar).foldl langCount (0, 0)).1 >
      ((text.data.map pyLowerChar).foldl langCount (0, 0)).2 then .ok (ruLang, enLang)
  else if ((text.data.map pyLowerChar).foldl langCount (0, 0)).2 >
      ((text.data.map pyLowerChar).foldl langCount (0, 0)).1 then .ok (enLang, ruLang)
  else .ok (ruLang, enLang)

/-- The `YandexAPIError` message for a malformed payload. -/
def badPayloadMsg : String := "\"text\" не найден или имеет неверный формат в ответе API"

/-- The `try` body of `_yandex_translate`: a raised request error
propagates; a present non-empty `text` list is joined; anything else is a
`YandexAPIError`. -/
def translateTryBody (request : Except PyErr (Option (List String))) : Except PyErr String :=
  match request with
  | .error e => .error e
  | .ok (some l) => if l.isEmpty then .error (.api badPayloadMsg) else .ok (String.join l)
  | .ok none => .error (.api badPayloadMsg)

/-- The message prefix of the `YandexRequestError` wrapper in
`_yandex_translate`. -/
def translateWrapMsg : String := "ОШИБКА при переводе текста: "

/-- `_yandex_translate(input_text)`: language detection (outside the `try`)
then the request/response handling, whose every failure is re-raised as a
`YandexRequestError` by the blanket `except Exception`. -/
def yandex_translate (inputText : String) (request : Except PyErr (Option (List String))) :
    Except PyErr String :=
  match detect_lang_pair inputText with
  | .error e => .error e
  | .ok _ =>
    match translateTryBody request with
    | .ok v => .ok v
    | .error e => .error (.req (translateWrapMsg ++ msgOf e))

/-- The `try` body of `_yandex_editor_api`: a raised request error
propagates; a present non-empty `result_text` is returned; anything else is
a `YandexAPIError`. -/
def editorTryBody (request : Except PyErr (Option String)) : Except PyErr String :=
  match request with
  | .error e => .error e
  | .ok (some r) => if r = "" then .error (.api badPayloadMsg) else .ok r
  | .ok none => .error (.api badPayloadMsg)

/-- The message prefix of the `YandexRequestError` wrapper in
`_yandex_editor_api`. -/
def editorWrapMsg : String := "ОШИБКА при вызове API: "

/-- `_yandex_editor_api(input_text, action)`: language detection (outside
the `try`) then the request/response handling, wrapped like
`_yandex_translate`. -/
def yandex_editor_api (inputText : String) (request : Except PyErr (Option String)) :
    Except PyErr String :=
  match detect_lang_pair inputText with
  | .error e => .error e
  | .ok _ =>
    match editorTryBody request with
    | .ok v => .ok v
    | .error e => .error (.req (editorWrapMsg ++ msgOf e))

/-! ## Lemmas about the scanner's searches -/

theorem findFromAux_spec (text pat : List Char) :
    ∀ fuel s idx, findFromAux text pat fuel s = some idx →
      s ≤ idx ∧ idx + pat.length ≤ text.length ∧ pat.isPrefixOf (text.drop idx) = true := by
  intro fuel
  induction fuel with
  | zero => intro s idx h; simp [findFromAux] at h
  | succ f ih =>
    intro s idx h
    simp only [findFromAux] at h
    split at h
    · split at h
      · rename_i hlen hpre
        cases h
        exact ⟨le_refl _, hlen, hpre⟩
      · rcases ih (s + 1) idx h with ⟨h1, h2, h3⟩
        exact ⟨by omega, h2, h3⟩
    · exact absurd h (by simp)

theorem findFrom_spec (text pat : List Char) (s idx : Nat) (h : findFrom text pat s = some idx) :
    s ≤ idx ∧ idx + pat.length ≤ text.length ∧ pat.isPrefixOf (text.drop idx) = true :=
  findFromAux_spec text pat _ s idx h

theorem findClosingTagAux_spec (text tag : List Char) :
    ∀ fuel s e, findClosingTagAux text tag fuel s = some e →
      s + tag.length ≤ e ∧ e ≤ text.length ∧
      tag.isPrefixOf (text.drop (e - tag.length)) = true ∧
      is_escaped text (e - tag.length) = false := by
  intro fuel
  induction fuel with
  | zero => intro s e h; simp [findClosingTagAux] at h
  | succ f ih =>
    intro s e h
    simp only [findClosingTagAux] at h
    split at h
    · exact absurd h (by simp)
    · rename_i idx hfind
      rcases findFrom_spec text tag s idx hfind with ⟨hs, hlen, hpre⟩
      split at h
      · rcases ih (idx + 1) e h with ⟨h1, h2, h3, h4⟩
        exact ⟨by omega, h2, h3, h4⟩
      · rename_i hesc
        cases h
        refine ⟨by omega, hlen, ?_, ?_⟩
        · simpa using hpre
        · simpa using hesc

theorem find_closing_tag_spec (text : List Char) (s : Nat) (tag : List Char) (e : Nat)
    (h : find_closing_tag text s tag = some e) :
    s + tag.length ≤ e ∧ e ≤ text.length ∧
    tag.isPrefixOf (text.drop (e - tag.length)) = true ∧
    is_escaped text (e - tag.length) = false :=
  findClosingTagAux_spec text tag _ s e h

/-- Reading a character through a prefix of a suffix. -/
theorem getD_of_prefix (text pat : List Char) (j k : Nat) (d : Char)
    (hpre : pat.isPrefixOf (text.drop j) = true) (hk : k < pat.length) :
    text.getD (j + k) d = pat.getD k d := by
  rw [List.isPrefixOf_iff_prefix] at hpre
  rcases hpre with ⟨t, ht⟩
  have hlen : j + pat.length ≤ text.length := by
    have := congrArg List.length ht
    simp [List.length_drop] at this
    omega
  have h1 : text.getD (j + k) d = (text.drop j).getD k d := by
    simp [List.getD_eq_getElem?_getD, List.getElem?_drop]
  rw [h1, ← ht]
  simp [List.getD_eq_getElem?_getD, List.getElem?_append, hk]

/-! ## The scanner's zones are in order, disjoint and unescaped -/

/-- No formatting marker contains a backslash (boolean form). -/
theorem fmtTag_all_no_backslash (text : List Char) (i : Nat) :
    (fmtTag text i).all (fun c => !(c == '\\')) = true := by
  unfold fmtTag
  repeat' split
  all_goals decide

/-- No formatting marker contains a backslash. -/
theorem fmtTag_no_backslash (text : List Char) (i : Nat) :
    ∀ c ∈ fmtTag text i, c ≠ '\\' := by
  intro c hc
  have h := fmtTag_all_no_backslash text i
  rw [List.all_eq_true] at h
  have hx := h c hc
  simpa using hx

/-- What one successful scan step guarantees about its zone: it starts at
the scan position, ends after it and inside the text, its closing delimiter
is unescaped, and its last character is not a backslash. -/
theorem scanZone_spec (text : List Char) (i : Nat) (z : ProtectedZone)
    (h : scanZone text i = some z) :
    z.start = i ∧ i < z.endPos ∧ z.endPos ≤ text.length ∧
    is_escaped text (z.endPos - max z.closeTag.length 1) = false ∧
    text.getD (z.endPos - 1) nullChar ≠ '\\' := by
  unfold scanZone at h
  split at h
  · -- fence
    rename_i z' hf
    cases h
    unfold scanFence at hf
    split at hf
    · split at hf
      · rename_i hpre e hcl
        cases hf
        rcases find_closing_tag_spec text (i + 3) fenceTag e hcl with ⟨h1, h2, h3, h4⟩
        have hlen : fenceTag.length = 3 := by decide
        rw [hlen] at h1 h3 h4
        have hbq : text.getD (e - 1) nullChar = bq := by
          have hx := getD_of_prefix text fenceTag (e - 3) 2 nullChar h3 (by decide)
          have he1 : e - 3 + 2 = e - 1 := by omega
          rw [he1] at hx
          rw [hx]; decide
        refine ⟨rfl, show i < e by omega, h2, ?_, ?_⟩
        · show is_escaped text (e - 3) = false
          exact h4
        · show text.getD (e - 1) nullChar ≠ '\\'
          rw [hbq]; decide
      · exact absurd hf (by simp)
    · exact absurd hf (by simp)
  · split at h
    · -- inline code
      rename_i z' hf
      cases h
      unfold scanInline at hf
      split at hf
      · rcases Option.map_eq_some'.mp hf with ⟨e, hcl, hz⟩
        cases hz
        rcases find_closing_tag_spec text (i + 1) [bq] e hcl with ⟨h1, h2, h3, h4⟩
        simp only [List.length_singleton] at h1 h3 h4
        have hbq : text.getD (e - 1) nullChar = bq := by
          have hx := getD_of_prefix text [bq] (e - 1) 0 nullChar h3 (by decide)
          simpa using hx
        refine ⟨rfl, show i < e by omega, h2, ?_, ?_⟩
        · show is_escaped text (e - 1) = false
          exact h4
        · show text.getD (e - 1) nullChar ≠ '\\'
          rw [hbq]; decide
      · exact absurd hf (by simp)
    · split at h
      · -- link
        rename_i z' hf
        cases h
        unfold scanLink at hf
        split at hf
        · split at hf
          · rename_i tEnd hcl1
            split at hf
            · rcases Option.map_eq_some'.mp hf with ⟨e, hcl2, hz⟩
              cases hz
              rcases find_closing_tag_spec text (i + 1) [']'] tEnd hcl1 with ⟨g1, _, _, _⟩
              rcases find_closing_tag_spec text (tEnd + 1) [')'] e hcl2 with ⟨h1, h2, h3, h4⟩
              simp only [List.length_singleton] at g1 h1 h3 h4
              have hpar : text.getD (e - 1) nullChar = ')' := by
                have hx := getD_of_prefix text [')'] (e - 1) 0 nullChar h3 (by decide)
                simpa using hx
              refine ⟨rfl, show i < e by omega, h2, ?_, ?_⟩
              · show is_escaped text (e - 1) = false
                exact h4
              · show text.getD (e - 1) nullChar ≠ '\\'
                rw [hpar]; decide
            · exact absurd hf (by simp)
          · exact absurd hf (by simp)
        · exact absurd hf (by simp)
      · -- formatting marker
        unfold scanFmt at h
        split at h
        · exact absurd h (by simp)
        · rename_i hne
          rcases Option.map_eq_some'.mp h with ⟨e, hcl, hz⟩
          cases hz
          rcases find_closing_tag_spec text (i + (fmtTag text i).length) (fmtTag text i) e hcl
            with ⟨h1, h2, h3, h4⟩
          have hpos : 1 ≤ (fmtTag text i).length := by
            have hnil : fmtTag text i ≠ [] := by
              intro hx; rw [hx] at hne; simp at hne
            have := List.length_pos.mpr hnil
            omega
          have hgl : text.getD (e - 1) nullChar =
              (fmtTag text i).getD ((fmtTag text i).length - 1) nullChar := by
            have hx := getD_of_prefix text (fmtTag text i) (e - (fmtTag text i).length)
              ((fmtTag text i).length - 1) nullChar h3 (by omega)
            have he : e - (fmtTag text i).length + ((fmtTag text i).length - 1) = e - 1 := by
              omega
            rw [he] at hx
            exact hx
          have hlast : text.getD (e - 1) nullChar ≠ '\\' := by
            rw [hgl]
            have hlt : (fmtTag text i).length - 1 < (fmtTag text i).length := by omega
            rw [List.getD_eq_getElem _ _ hlt]
            exact fmtTag_no_backslash text i _ (List.getElem_mem hlt)
          refine ⟨rfl, show i < e by omega, h2, ?_, hlast⟩
          show is_escaped text (e - max (fmtTag text i).length 1) = false
          have hmax : max (fmtTag text i).length 1 = (fmtTag text i).length := by omega
          rw [hmax]
          exact h4

/-- Zones listed from position `i` on: each starts no earlier than `i`,
is non-degenerate, and the rest starts no earlier than its end. -/
def ZonesWF : Nat → List ProtectedZone → Prop
  | _, [] => True
  | i, z :: zs => i ≤ z.start ∧ z.start < z.endPos ∧ ZonesWF z.endPos zs

theorem ZonesWF_mono {i' i : Nat} {zs : List ProtectedZone} (h : i' ≤ i) (hwf : ZonesWF i zs) :
    ZonesWF i' zs := by
  cases zs with
  | nil => trivial
  | cons z zs =>
    rcases hwf with ⟨h1, h2, h3⟩
    exact ⟨le_trans h h1, h2, h3⟩

theorem findZonesAux_wf (text : List Char) :
    ∀ fuel i, ZonesWF i (findZonesAux text fuel i) := by
  intro fuel
  induction fuel with
  | zero => intro i; simp [findZonesAux, ZonesWF]
  | succ f ih =>
    intro i
    unfold findZonesAux
    split
    · split
      · exact ZonesWF_mono (by omega) (ih (i + 2))
      · split
        · rename_i z hz
          rcases scanZone_spec text i z hz with ⟨h1, h2, _, _, _⟩
          exact ⟨by omega, by omega, ih z.endPos⟩
        · exact ZonesWF_mono (by omega) (ih (i + 1))
    · trivial

theorem find_zones_wf (text : List Char) : ZonesWF 0 (find_zones text) :=
  findZonesAux_wf text _ 0

/-- `ZonesWF` unpacked: bounds for every member and pairwise separation. -/
theorem ZonesWF_pairwise {i : Nat} {zs : List ProtectedZone} (h : ZonesWF i zs) :
    (∀ z ∈ zs, i ≤ z.start ∧ z.start < z.endPos) ∧
    zs.Pairwise (fun a b => a.endPos ≤ b.start) := by
  induction zs generalizing i with
  | nil => simp
  | cons z zs ih =>
    rcases h with ⟨h1, h2, h3⟩
    rcases ih h3 with ⟨ih1, ih2⟩
    constructor
    · intro w hw
      rcases List.mem_cons.mp hw with hw | hw
      · subst hw; exact ⟨h1, h2⟩
      · rcases ih1 w hw with ⟨g1, g2⟩
        exact ⟨by omega, g2⟩
    · refine List.Pairwise.cons ?_ ih2
      intro w hw
      rcases ih1 w hw with ⟨g1, g2⟩
      omega

/-- C9: the protected zones returned by the zone scanner are ordered left to
right, mutually non-overlapping and non-nested: consecutive zones satisfy
`z_k.start < z_k.end ≤ z_{k+1}.start`. -/
theorem zones_sorted_disjoint : ∀ (text : List Char) (k : Nat),
    k + 1 < (find_zones text).length →
    ((find_zones text).getD k defaultZone).start <
      ((find_zones text).getD k defaultZone).endPos ∧
    ((find_zones text).getD k defaultZone).endPos ≤
      ((find_zones text).getD (k + 1) defaultZone).start := by
  intro text k hk
  rcases ZonesWF_pairwise (find_zones_wf text) with ⟨hmem, hpw⟩
  have hk' : k < (find_zones text).length := by omega
  rw [List.getD_eq_getElem _ _ hk', List.getD_eq_getElem _ _ hk]
  constructor
  · exact (hmem _ (List.getElem_mem hk')).2
  · exact (List.pairwise_iff_getElem.mp hpw) k (k + 1) hk' hk (by omega)

/-- Concrete text with two zones, for the witness below. -/
def c9wText : List Char := "`a` *b*".data

/-- Witness for C9 at a text with an inline-code and an emphasis zone. -/
theorem zones_sorted_disjoint_witness :
    1 < (find_zones c9wText).length ∧
    (((find_zones c9wText).getD 0 defaultZone).start <
       ((find_zones c9wText).getD 0 defaultZone).endPos ∧
     ((find_zones c9wText).getD 0 defaultZone).endPos ≤
       ((find_zones c9wText).getD 1 defaultZone).start) :=
  ⟨by decide, zones_sorted_disjoint c9wText 0 (by decide)⟩

/-! ## Escape parity along the scan (C7) -/

theorem is_escaped_zero (text : List Char) : is_escaped text 0 = false := by
  simp [is_escaped, backslashRun]

/-- Advancing over a non-backslash character lands unescaped. -/
theorem is_escaped_succ_of_not_backslash (text : List Char) (i : Nat)
    (h : text.getD i nullChar ≠ '\\') : is_escaped text (i + 1) = false := by
  have e1 : backslashRun text (i + 1) =
      if text.getD i nullChar == '\\' then backslashRun text i + 1 else 0 := rfl
  unfold is_escaped
  rw [e1, beq_eq_false_iff_ne.mpr h]
  rfl

/-- The escape-pair skip (`i += 2` from a backslash at an unescaped
position) lands unescaped: the parity of the backslash run is preserved. -/
theorem is_escaped_skip2 (text : List Char) (i : Nat)
    (hesc : is_escaped text i = false) (hbs : text.getD i nullChar = '\\') :
    is_escaped text (i + 2) = false := by
  have hrun : backslashRun text i % 2 = 0 := by
    unfold is_escaped at hesc
    rcases Nat.mod_two_eq_zero_or_one (backslashRun text i) with h | h
    · exact h
    · rw [h] at hesc; simp at hesc
  have e2 : backslashRun text (i + 2) =
      if text.getD (i + 1) nullChar == '\\' then backslashRun text (i + 1) + 1 else 0 := rfl
  have e1 : backslashRun text (i + 1) =
      if text.getD i nullChar == '\\' then backslashRun text i + 1 else 0 := rfl
  unfold is_escaped
  rw [e2]
  by_cases h1 : text.getD (i + 1) nullChar = '\\'
  · simp only [h1, beq_self_eq_true, if_true, e1, hbs]
    have hmod : (backslashRun text i + 1 + 1) % 2 = 0 := by omega
    simp [hmod]
  · rw [beq_eq_false_iff_ne.mpr h1]
    rfl

/-- A position right after a non-backslash character is unescaped. -/
theorem is_escaped_of_prev_not_backslash (text : List Char) (e : Nat)
    (hpos : 0 < e) (h : text.getD (e - 1) nullChar ≠ '\\') :
    is_escaped text e = false := by
  cases e with
  | zero => omega
  | succ k =>
    have h' : text.getD k nullChar ≠ '\\' := by simpa using h
    exact is_escaped_succ_of_not_backslash text k h'

/-- Strengthened scan invariant: starting from an unescaped position, every
zone the scanner emits has an unescaped opening position and an unescaped
closing-delimiter position. -/
theorem findZonesAux_unescaped (text : List Char) :
    ∀ fuel i, is_escaped text i = false →
      ∀ z ∈ findZonesAux text fuel i,
        is_escaped text z.start = false ∧
        is_escaped text (z.endPos - max z.closeTag.length 1) = false := by
  intro fuel
  induction fuel with
  | zero => intro i _ z hz; simp [findZonesAux] at hz
  | succ f ih =>
    intro i hinv z hz
    unfold findZonesAux at hz
    split at hz
    · split at hz
      · rename_i hbs
        exact ih (i + 2) (is_escaped_skip2 text i hinv (by simpa using hbs)) z hz
      · rename_i hbs
        split at hz
        · rename_i w hw
          rcases scanZone_spec text i w hw with ⟨h1, h2, _, h4, h5⟩
          rcases List.mem_cons.mp hz with hz | hz
          · subst hz
            exact ⟨h1 ▸ hinv, h4⟩
          · refine ih w.endPos ?_ z hz
            exact is_escaped_of_prev_not_backslash text w.endPos (by omega) h5
        · refine ih (i + 1) ?_ z hz
          exact is_escaped_succ_of_not_backslash text i (by simpa using hbs)
    · simp at hz

/-- C7: a delimiter position immediately preceded by an odd number of
backslashes never opens or closes a protected zone: every zone's start and
closing-delimiter positions are unescaped. -/
theorem zone_delimiters_unescaped : ∀ (text : List Char) (z : ProtectedZone),
    z ∈ find_zones text →
    is_escaped text z.start = false ∧
    is_escaped text (z.endPos - max z.closeTag.length 1) = false := by
  intro text z hz
  exact findZonesAux_unescaped text _ 0 (is_escaped_zero text) z hz

/-- Concrete text with an inline-code zone, for the witness below. -/
def c7wText : List Char := "`a`".data

/-- The zone the scanner finds in `c7wText`. -/
def c7wZone : ProtectedZone := ⟨0, 3, [bq], [bq], false, true⟩

/-- Witness for C7. -/
theorem zone_delimiters_unescaped_witness :
    c7wZone ∈ find_zones c7wText ∧
    (is_escaped c7wText c7wZone.start = false ∧
     is_escaped c7wText (c7wZone.endPos - max c7wZone.closeTag.length 1) = false) :=
  ⟨by decide, zone_delimiters_unescaped c7wText c7wZone (by decide)⟩

/-! ## The unmatched-fence behaviour (C6) -/

/-- What `_find_zones` actually does at a ` ``` ` run with no unescaped
closing run: the fence branch fails, the scan falls through to the
inline-code branch, which matches the second backtick and emits an atomic
inline-code zone over the first two backticks, resuming after it. -/
theorem unmatched_fence_creates_inline (text : List Char) (i fuel : Nat)
    (hpre : fenceTag.isPrefixOf (text.drop i) = true)
    (hno : find_closing_tag text (i + 3) fenceTag = none) :
    findZonesAux text (fuel + 1) i =
      ⟨i, i + 2, [bq], [bq], false, true⟩ :: findZonesAux text fuel (i + 2) := by
  have hpre' := hpre
  rw [List.isPrefixOf_iff_prefix] at hpre'
  rcases hpre' with ⟨t, ht⟩
  have hlen : i + 3 ≤ text.length := by
    have hx := congrArg List.length ht
    simp [List.length_drop, fenceTag] at hx
    omega
  have hgi : text.getD i nullChar = bq := by
    have hx := getD_of_prefix text fenceTag i 0 nullChar hpre (by decide)
    simpa [fenceTag] using hx
  have hdrop1 : text.drop (i + 1) = bq :: bq :: t := by
    have h2 : text.drop (i + 1) = (text.drop i).drop 1 := by
      rw [List.drop_drop, Nat.add_comm]
    rw [h2, ← ht]
    rfl
  have hpre1 : [bq].isPrefixOf (text.drop (i + 1)) = true := by
    rw [List.isPrefixOf_iff_prefix, hdrop1]
    exact ⟨bq :: t, rfl⟩
  have hfind : findFrom text [bq] (i + 1) = some (i + 1) := by
    simp only [findFrom, findFromAux, List.length_singleton]
    rw [if_pos (by omega), if_pos hpre1]
  have hesc : is_escaped text (i + 1) = false := by
    refine is_escaped_succ_of_not_backslash text i ?_
    rw [hgi]; decide
  have hct : find_closing_tag text (i + 1) [bq] = some (i + 2) := by
    simp only [find_closing_tag, findClosingTagAux, hfind, hesc]
    rfl
  have hbq_ne : (text.getD i nullChar == '\\') = false := by
    rw [hgi]; decide
  have hscan : scanZone text i = some ⟨i, i + 2, [bq], [bq], false, true⟩ := by
    unfold scanZone scanFence scanInline
    rw [if_pos hpre, hno]
    simp only [hgi, beq_self_eq_true, if_true, hct, Option.map_some']
  simp only [findZonesAux]
  rw [if_pos (by omega : i < text.length), hbq_ne, hscan]
  simp

/-- Concrete unmatched-fence text for C6. -/
def c6Text : List Char := "```abc".data

/-- Counterexample to C6 as stated: on a ` ``` ` run with no closing run the
scanner does create a protected zone (an inline-code zone over the first
two backticks) and resumes two positions forward, not one. -/
theorem unmatched_fence_cex :
    find_zones c6Text = [⟨0, 2, [bq], [bq], false, true⟩] := by decide

/-- Witness for the amended C6 at `c6Text`. -/
theorem unmatched_fence_creates_inline_witness :
    fenceTag.isPrefixOf (c6Text.drop 0) = true ∧
    find_closing_tag c6Text (0 + 3) fenceTag = none ∧
    findZonesAux c6Text 7 0 = ⟨0, 0 + 2, [bq], [bq], false, true⟩ :: findZonesAux c6Text 6 (0 + 2) :=
  ⟨by decide, by decide, unmatched_fence_creates_inline c6Text 0 6 (by decide) (by decide)⟩

/-! ## Atomic-zone deferral in the splitter (C3) -/

/-- Any two distinct scanner zones are separated (one ends before the other
starts). -/
theorem find_zones_separated (text : List Char) :
    ∀ a ∈ find_zones text, ∀ b ∈ find_zones text, a ≠ b →
      a.endPos ≤ b.start ∨ b.endPos ≤ a.start := by
  rcases ZonesWF_pairwise (find_zones_wf text) with ⟨_, hpw⟩
  have hsym : Symmetric (fun a b : ProtectedZone => a.endPos ≤ b.start ∨ b.endPos ≤ a.start) :=
    fun a b h => h.symm
  have hpw' : (find_zones text).Pairwise
      (fun a b => a.endPos ≤ b.start ∨ b.endPos ≤ a.start) :=
    hpw.imp Or.inl
  intro a ha b hb hab
  exact hpw'.forall hsym ha hb hab

/-- C3 (amended): when the tentative split position lies strictly inside an
atomic zone whose start is after the cursor, the zone-adjustment step moves
the split position exactly to the zone's start (deferring the whole zone,
with no suffix or reopening prefix), and that new position is not strictly
inside any atomic zone. The subsequent backward newline/space search can
still move the final boundary, which is why the original global claim
fails (see the counterexample). -/
theorem atomic_zone_defer : ∀ (text : List Char) (cp em sp : Int) (z : ProtectedZone),
    zoneActive (find_zones text) sp = some z →
    z.atomic = true →
    cp < (z.start : Int) →
    zoneAdjust (find_zones text) cp em sp = ((z.start : Int), [], []) ∧
    ∀ z' ∈ find_zones text, z'.atomic = true →
      ¬((z'.start : Int) < (z.start : Int) ∧ (z.start : Int) < (z'.endPos : Int)) := by
  intro text cp em sp z hfind hat hcp
  constructor
  · unfold zoneAdjust
    rw [hfind]
    simp [hat, hcp]
  · intro z' hz' _
    have hz : z ∈ find_zones text := List.mem_of_find?_eq_some hfind
    rcases ZonesWF_pairwise (find_zones_wf text) with ⟨hmem, _⟩
    by_cases hne : z' = z
    · subst hne
      intro hcon
      omega
    · rcases find_zones_separated text z' hz' z hz hne with h | h
      · intro hcon
        omega
      · have hzz := (hmem z hz).2
        have hzz' := (hmem z' hz').2
        intro hcon
        omega

/-- Concrete text for the C3 counterexample: a link zone `[a b](u)` whose
interior space attracts the backward nice-boundary search. -/
def c3Text : List Char := "q[a b](u)xxxxxxxxzzzz".data

/-- The raw spans `_smart_split c3Text 12` actually produces. -/
theorem c3_split_eval : (smartSplitRecs c3Text 12 50).map (List.map SplitRec.spos) =
    some [4, 16, 21] := by decide

/-- Counterexample to C3 as stated: for `c3Text` with `maxLength = 12` the
scanner's only zone is the atomic link zone `[1, 9)`; it starts after the
cursor position `0` of the first chunk, yet the boundary between the first
two chunks is `4`, strictly inside the zone: the backward space search
moved the boundary into the atomic zone. -/
theorem atomic_zone_boundary_cex :
    find_zones c3Text = [⟨1, 9, [], [], false, true⟩] ∧
    (smartSplitRecs c3Text 12 50).map (List.map SplitRec.cpos) = some [0, 4, 16] ∧
    (smartSplitRecs c3Text 12 50).map (List.map SplitRec.spos) = some [4, 16, 21] ∧
    ((0 : Int) < 1 ∧ (1 : Int) < 4 ∧ (4 : Int) < 9) := by
  refine ⟨by decide, by decide, by decide, by decide⟩

/-- Concrete inline-code zone setup for the C3 witness. -/
def c3wText : List Char := "x`ab`y".data

/-- Witness for the amended C3 at `c3wText` (zone `[1, 5)`, tentative split
`3`, cursor `0`). -/
theorem atomic_zone_defer_witness :
    zoneActive (find_zones c3wText) 3 = some ⟨1, 5, [bq], [bq], false, true⟩ ∧
    (zoneAdjust (find_zones c3wText) 0 5 3 = ((1 : Int), [], []) ∧
     ∀ z' ∈ find_zones c3wText, z'.atomic = true →
       ¬((z'.start : Int) < ((1 : Nat) : Int) ∧ ((1 : Nat) : Int) < (z'.endPos : Int))) :=
  ⟨by decide,
   atomic_zone_defer c3wText 0 5 3 ⟨1, 5, [bq], [bq], false, true⟩ (by decide) (by decide)
     (by decide)⟩

/-! ## Raw-span coverage of the splitter (C1) -/

theorem smartSplitStep_done_spec (text : List Char) (zones : List ProtectedZone)
    (ml cp : Int) (pre : List Char) (r : SplitRec)
    (h : smartSplitStep text zones ml cp pre = .done r) :
    r.cpos = cp ∧ r.spos = (text.length : Int) ∧ r.raw = pySlice text cp (text.length : Int) := by
  simp only [smartSplitStep] at h
  split at h
  · cases h
    exact ⟨rfl, rfl, rfl⟩
  · simp at h

theorem smartSplitStep_more_spec (text : List Char) (zones : List ProtectedZone)
    (ml cp : Int) (pre : List Char) (r : SplitRec) (newCp : Int) (newPre : List Char)
    (h : smartSplitStep text zones ml cp pre = .more r newCp newPre) :
    r.cpos = cp ∧ r.spos = newCp ∧ r.raw = pySlice text cp newCp := by
  simp only [smartSplitStep] at h
  split at h
  · simp at h
  · cases h
    exact ⟨rfl, rfl, rfl⟩

/-- The shape of a terminating splitter run from cursor `cp`: each record
starts where the previous one stopped, its raw span is the slice between
its endpoints, and the last record (if the loop ran at all) reaches the end
of the text. -/
inductive Covers (text : List Char) : Int → List SplitRec → Prop where
  | stop (cp : Int) (h : ¬ cp < (text.length : Int)) : Covers text cp []
  | last (cp : Int) (r : SplitRec) (hc : r.cpos = cp) (hs : r.spos = (text.length : Int))
      (hr : r.raw = pySlice text cp (text.length : Int)) : Covers text cp [r]
  | step (cp : Int) (r : SplitRec) (rest : List SplitRec) (hc : r.cpos = cp)
      (hr : r.raw = pySlice text cp r.spos) (hnext : Covers text r.spos rest) :
      Covers text cp (r :: rest)

theorem goAux_covers (text : List Char) (zones : List ProtectedZone) (ml : Int) :
    ∀ (fuel : Nat) (cp : Int) (pre : List Char) (acc out : List SplitRec),
      smartSplitGoAux text zones ml fuel cp pre acc = some out →
      ∃ tail, out = acc ++ tail ∧ Covers text cp tail := by
  intro fuel
  induction fuel with
  | zero => intro cp pre acc out h; simp [smartSplitGoAux] at h
  | succ f ih =>
    intro cp pre acc out h
    simp only [smartSplitGoAux] at h
    split at h
    · split at h
      · rename_i r hstep
        rcases smartSplitStep_done_spec text zones ml cp pre r hstep with ⟨h1, h2, h3⟩
        cases h
        exact ⟨[r], rfl, Covers.last cp r h1 h2 h3⟩
      · rename_i r newCp newPre hstep
        rcases ih newCp newPre (acc ++ [r]) out h with ⟨tail, htail, hcov⟩
        rcases smartSplitStep_more_spec text zones ml cp pre r newCp newPre hstep
          with ⟨h1, h2, h3⟩
        refine ⟨r :: tail, by simp [htail], ?_⟩
        refine Covers.step cp r tail h1 ?_ ?_
        · rw [h2]; exact h3
        · rw [h2]; exact hcov
    · rename_i hcp
      cases h
      exact ⟨[], by simp, Covers.stop cp hcp⟩

/-- Two adjacent Python slices with ordered, non-negative endpoints paste
into one slice up to the end of the text. -/
theorem pySlice_append_to_end (text : List Char) (a b : Int) (ha : 0 ≤ a) (hab : a ≤ b) :
    pySlice text a b ++ pySlice text b (text.length : Int) =
    pySlice text a (text.length : Int) := by
  unfold pySlice pyNormIdx
  have hb : 0 ≤ b := le_trans ha hab
  rw [if_neg (by omega), if_neg (by omega), if_neg (by omega)]
  set n := text.length with hn
  have hna : (min a (n : Int)).toNat ≤ (min b (n : Int)).toNat := by omega
  have hnb : (min b (n : Int)).toNat ≤ (min (n : Int) (n : Int)).toNat := by omega
  set a' := (min a (n : Int)).toNat
  set b' := (min b (n : Int)).toNat
  have hmm : (min (n : Int) (n : Int)).toNat = n := by omega
  rw [hmm]
  have hdd : (text.drop a').drop (b' - a') = text.drop b' := by
    rw [List.drop_drop]
    congr 1
    omega
  calc (text.drop a').take (b' - a') ++ (text.drop b').take (n - b')
      = (text.drop a').take (b' - a') ++ ((text.drop a').drop (b' - a')).take (n - b') := by
        rw [hdd]
    _ = (text.drop a').take ((b' - a') + (n - b')) := (List.take_add _ _ _).symm
    _ = (text.drop a').take (n - a') := by congr 1; omega

theorem covers_head_cpos (text : List Char) (c : Int) (recs : List SplitRec)
    (h : Covers text c recs) : ∀ y ∈ recs.head?, y.cpos = c := by
  cases h with
  | stop => simp
  | last cp r hc _ _ => simp [hc]
  | step cp r rest hc _ _ => simp [hc]

/-- The main induction: a terminating run whose spans never step backwards
flattens to the slice from its start to the end of the text, is chained
(each record starts where the previous stopped), and stays non-negative. -/
theorem covers_flatten (text : List Char) :
    ∀ (cp : Int) (recs : List SplitRec), Covers text cp recs →
      0 ≤ cp → (∀ r ∈ recs, r.cpos ≤ r.spos) →
      (recs.map SplitRec.raw).flatten = pySlice text cp (text.length : Int) ∧
      List.Chain' (fun a b => a.spos = b.cpos) recs ∧
      (∀ r ∈ recs, 0 ≤ r.cpos) := by
  intro cp recs hcov
  induction hcov with
  | stop cp h =>
    intro hcp _
    refine ⟨?_, by simp, by simp⟩
    have hnorm : pyNormIdx text.length cp = text.length := by
      unfold pyNormIdx
      rw [if_neg (by omega)]
      omega
    have hnorm2 : pyNormIdx text.length (text.length : Int) = text.length := by
      unfold pyNormIdx
      rw [if_neg (by omega)]
      omega
    simp [pySlice, hnorm, hnorm2]
  | last cp r hc hs hr =>
    intro hcp _
    refine ⟨by simp [hr], by simp, ?_⟩
    intro r' hr'
    simp at hr'
    subst hr'
    rw [hc]
    exact hcp
  | step cp r rest hc hr hnext ih =>
    intro hcp hmono
    have hcs : r.cpos ≤ r.spos := hmono r (by simp)
    have hsp0 : 0 ≤ r.spos := by rw [hc] at hcs; omega
    rcases ih hsp0 (fun r' h => hmono r' (by simp [h])) with ⟨ih1, ih2, ih3⟩
    refine ⟨?_, ?_, ?_⟩
    · simp only [List.map_cons, List.flatten_cons, ih1, hr]
      rw [hc] at hcs
      exact pySlice_append_to_end text cp r.spos hcp hcs
    · refine List.chain'_cons'.mpr ⟨?_, ih2⟩
      intro y hy
      exact (covers_head_cpos text r.spos rest hnext y hy).symm
    · intro r' hr'
      rcases List.mem_cons.mp hr' with hr' | hr'
      · subst hr'; rw [hc]; exact hcp
      · exact ih3 r' hr'

/-- C1 (amended): whenever `_smart_split` terminates and no iteration moved
its split position backwards past the cursor, the raw spans of the emitted
chunks are adjacent, in order, and flatten to exactly the input text. (As
stated the claim fails: an iteration can move the split position backwards,
see the counterexample.) -/
theorem smart_split_raw_coverage : ∀ (text : List Char) (maxLength : Int) (fuel : Nat)
    (recs : List SplitRec),
    smartSplitRecs text maxLength fuel = some recs →
    (∀ r ∈ recs, r.cpos ≤ r.spos) →
    (recs.map SplitRec.raw).flatten = text ∧
    List.Chain' (fun a b => a.spos = b.cpos) recs ∧
    smart_split text maxLength fuel = some (recs.map chunkOf) := by
  intro text ml fuel recs h hmono
  have hgo : smartSplitGoAux text (find_zones text) (if ml ≤ 0 then 4096 else ml)
      fuel 0 [] [] = some recs := h
  rcases goAux_covers text (find_zones text) _ fuel 0 [] [] recs hgo with ⟨tail, htail, hcov⟩
  simp at htail
  subst htail
  rcases covers_flatten text 0 recs hcov (le_refl 0) hmono with ⟨h1, h2, _⟩
  refine ⟨?_, h2, ?_⟩
  · rw [h1]
    have e0 : pyNormIdx text.length 0 = 0 := by unfold pyNormIdx; simp
    have en : pyNormIdx text.length (text.length : Int) = text.length := by
      unfold pyNormIdx
      rw [if_neg (by omega)]
      omega
    unfold pySlice
    rw [e0, en]
    simp
  · simp [smart_split, h]

/-- Concrete plain text for the C1 witness. -/
def c1wText : List Char := "hello world, this is a test".data

/-- The records `_smart_split c1wText 10` produces. -/
def c1wRecs : List SplitRec := (smartSplitRecs c1wText 10 60).getD []

/-- Witness for the amended C1. -/
theorem smart_split_raw_coverage_witness :
    smartSplitRecs c1wText 10 60 = some c1wRecs ∧
    (∀ r ∈ c1wRecs, r.cpos ≤ r.spos) ∧
    ((c1wRecs.map SplitRec.raw).flatten = c1wText ∧
     List.Chain' (fun a b => a.spos = b.cpos) c1wRecs ∧
     smart_split c1wText 10 60 = some (c1wRecs.map chunkOf)) :=
  ⟨by decide, by decide, smart_split_raw_coverage c1wText 10 60 c1wRecs (by decide) (by decide)⟩

/-- Concrete text for the C1 counterexample: an emphasis zone followed by a
fenced block; with `maxLength = 3` the suffix adjustment drives the split
position backwards past the cursor. -/
def c1Text : List Char := "*ab*```x\n```".data

/-- Counterexample to C1 as stated: `_smart_split c1Text 3` terminates, but
the concatenation of the raw spans of its chunks is not the input text (the
span `[3, 4)` is covered twice: the spans are neither disjoint nor
adjacent). -/
theorem smart_split_raw_coverage_cex :
    (smartSplitRecs c1Text 3 60).map
      (fun rs => (rs.map SplitRec.raw).flatten == c1Text) = some false := by decide

/-! ## Termination of the splitter (C2) -/

/-- The non-terminating input: a lone escape pair, `maxLength = 1`. -/
def c2Text : List Char := "\\a".data

/-- On `c2Text` with budget `1` one loop iteration leaves the cursor state
unchanged (the backslash walk pulls the split position back onto the
cursor), emitting an empty chunk. -/
theorem c2_step_fixed :
    smartSplitStep c2Text (find_zones c2Text) 1 0 [] = .more ⟨0, 0, [], [], []⟩ 0 [] := by
  decide

theorem c2_go_none : ∀ (fuel : Nat) (acc : List SplitRec),
    smartSplitGoAux c2Text (find_zones c2Text) 1 fuel 0 [] acc = none := by
  intro fuel
  induction fuel with
  | zero => intro acc; rfl
  | succ f ih =>
    intro acc
    simp only [smartSplitGoAux]
    rw [if_pos (by decide : (0 : Int) < (c2Text.length : Int)), c2_step_fixed]
    exact ih (acc ++ [⟨0, 0, [], [], []⟩])

/-- C2 fails on the code: `_smart_split("\a", 1)` never terminates — the
loop state repeats with the cursor stuck at `0`, so no amount of fuel
produces a result. (The spec's forward-progress guarantee only protects the
non-positive-budget case, not the backslash walk.) -/
theorem smart_split_nonterminating : ∀ fuel : Nat, smartSplitRecs c2Text 1 fuel = none := by
  intro fuel
  exact c2_go_none fuel []

/-! ## Backoff schedule (C5) -/

/-- C5: the retry delay is `min(baseDelay * 2^attempt, maxDelay)` with the
configured pairs (`YandexAPIError`: 1/10, `YandexRequestError`: 2/30, any
other type: the default 1/15); for a fixed kind the delay sequence is
non-decreasing and capped. -/
theorem backoff_schedule : ∀ (e : PyErr) (i : Nat),
    (error_delay e i).1 = min ((retryConfig e).1 * 2 ^ i) (retryConfig e).2 ∧
    (∀ m, retryConfig (PyErr.api m) = (1, 10)) ∧
    (∀ m, retryConfig (PyErr.req m) = (2, 30)) ∧
    (∀ nm m, retryConfig (PyErr.other nm m) = (1, 15)) ∧
    (error_delay e i).1 ≤ (error_delay e (i + 1)).1 ∧
    (error_delay e i).1 ≤ (retryConfig e).2 := by
  intro e i
  have hbase : (0 : ℚ) ≤ (retryConfig e).1 := by
    cases e <;> norm_num [retryConfig]
  refine ⟨rfl, fun m => rfl, fun m => rfl, fun nm m => rfl, ?_, ?_⟩
  · unfold error_delay
    dsimp only
    refine min_le_min ?_ (le_refl _)
    refine mul_le_mul_of_nonneg_left ?_ hbase
    refine pow_le_pow_right₀ ?_ (Nat.le_succ i)
    norm_num [BACKOFF_FACTOR]
  · exact min_le_right _ _

/-! ## Retry classification (C8) -/

theorem chunkRetryAux_ok (tf : String → Nat → Except PyErr String) (chunk : String) :
    ∀ (k rem att : Nat) (last : Option PyErr) (v : String),
      k < rem →
      (∀ j, j < k → ∃ ej, tf chunk (att + j) = .error ej ∧ isClassified ej = true) →
      tf chunk (att + k) = .ok v →
      chunkRetryAux tf chunk rem att last = .ok v := by
  intro k
  induction k with
  | zero =>
    intro rem att last v hk _ htf
    cases rem with
    | zero => omega
    | succ r =>
      rw [Nat.add_zero] at htf
      simp only [chunkRetryAux]
      rw [htf]
  | succ k ih =>
    intro rem att last v hk hcl htf
    cases rem with
    | zero => omega
    | succ r =>
      rcases hcl 0 (by omega) with ⟨e0, he0, hc0⟩
      rw [Nat.add_zero] at he0
      simp only [chunkRetryAux]
      rw [he0]
      simp only [hc0, if_true]
      refine ih r (att + 1) (some e0) v (by omega) ?_ ?_
      · intro j hj
        rcases hcl (j + 1) (by omega) with ⟨ej, hej, hc⟩
        refine ⟨ej, ?_, hc⟩
        rw [show att + 1 + j = att + (j + 1) by omega]
        exact hej
      · rw [show att + 1 + k = att + (k + 1) by omega]
        exact htf

theorem chunkRetryAux_raise (tf : String → Nat → Except PyErr String) (chunk : String) :
    ∀ (k rem att : Nat) (last : Option PyErr) (e : PyErr),
      k < rem →
      (∀ j, j < k → ∃ ej, tf chunk (att + j) = .error ej ∧ isClassified ej = true) →
      tf chunk (att + k) = .error e →
      isClassified e = false →
      chunkRetryAux tf chunk rem att last = .error e := by
  intro k
  induction k with
  | zero =>
    intro rem att last e hk _ htf hcf
    cases rem with
    | zero => omega
    | succ r =>
      rw [Nat.add_zero] at htf
      simp only [chunkRetryAux]
      rw [htf]
      simp [hcf]
  | succ k ih =>
    intro rem att last e hk hcl htf hcf
    cases rem with
    | zero => omega
    | succ r =>
      rcases hcl 0 (by omega) with ⟨e0, he0, hc0⟩
      rw [Nat.add_zero] at he0
      simp only [chunkRetryAux]
      rw [he0]
      simp only [hc0, if_true]
      refine ih r (att + 1) (some e0) e (by omega) ?_ ?_ hcf
      · intro j hj
        rcases hcl (j + 1) (by omega) with ⟨ej, hej, hc⟩
        refine ⟨ej, ?_, hc⟩
        rw [show att + 1 + j = att + (j + 1) by omega]
        exact hej
      · rw [show att + 1 + k = att + (k + 1) by omega]
        exact htf

/-- C8: in the per-chunk retry loop only the two recognized classifications
are caught and retried; any other error type propagates to the caller on
its first occurrence, and a success after classified failures is
returned. -/
theorem retry_classification :
    (∀ (tf : String → Nat → Except PyErr String) (chunk : String) (mr k : Nat) (e : PyErr),
       k < mr →
       (∀ j, j < k → ∃ ej, tf chunk j = .error ej ∧ isClassified ej = true) →
       tf chunk k = .error e → isClassified e = false →
       chunk_with_retry tf chunk mr = .error e) ∧
    (∀ (tf : String → Nat → Except PyErr String) (chunk : String) (mr k : Nat) (v : String),
       k < mr →
       (∀ j, j < k → ∃ ej, tf chunk j = .error ej ∧ isClassified ej = true) →
       tf chunk k = .ok v →
       chunk_with_retry tf chunk mr = .ok v) := by
  constructor
  · intro tf chunk mr k e hk hcl htf hcf
    refine chunkRetryAux_raise tf chunk k mr 0 none e hk ?_ ?_ hcf
    · intro j hj
      rcases hcl j hj with ⟨ej, hej, hc⟩
      exact ⟨ej, by rw [Nat.zero_add]; exact hej, hc⟩
    · rw [Nat.zero_add]; exact htf
  · intro tf chunk mr k v hk hcl htf
    refine chunkRetryAux_ok tf chunk k mr 0 none v hk ?_ ?_
    · intro j hj
      rcases hcl j hj with ⟨ej, hej, hc⟩
      exact ⟨ej, by rw [Nat.zero_add]; exact hej, hc⟩
    · rw [Nat.zero_add]; exact htf

/-- Concrete transforms for the C8 witness. -/
def cw8Chunk : String := "c"

/-- A message used by the witness transforms. -/
def cw8Msg : String := "boom"

/-- An unrecognized exception type name. -/
def cw8Name : String := "RuntimeError"

/-- Fails classified on attempt 0, then with an unrecognized type. -/
def tfW1 : String → Nat → Except PyErr String :=
  fun _ a => if a = 0 then .error (.req cw8Msg) else .error (.other cw8Name cw8Msg)

/-- Fails classified on attempt 0, then succeeds. -/
def tfW2 : String → Nat → Except PyErr String :=
  fun c a => if a = 0 then .error (.api cw8Msg) else .ok c

/-- Witness for C8. -/
theorem retry_classification_witness :
    chunk_with_retry tfW1 cw8Chunk 3 = .error (.other cw8Name cw8Msg) ∧
    chunk_with_retry tfW2 cw8Chunk 3 = .ok cw8Chunk :=
  ⟨retry_classification.1 tfW1 cw8Chunk 3 1 (.other cw8Name cw8Msg) (by omega)
     (fun j hj => by
        have hj0 : j = 0 := by omega
        subst hj0
        exact ⟨.req cw8Msg, rfl, rfl⟩)
     rfl rfl,
   retry_classification.2 tfW2 cw8Chunk 3 1 cw8Chunk (by omega)
     (fun j hj => by
        have hj0 : j = 0 := by omega
        subst hj0
        exact ⟨.api cw8Msg, rfl, rfl⟩)
     rfl⟩

/-! ## Batch abort with progress annotation (C4) -/

theorem batchGo_spec (tf : String → Nat → Except PyErr String) (mr : Nat) :
    ∀ (chunks : List String) (total : Nat) (acc : List String) (k : Nat) (e : PyErr),
      k < chunks.length →
      (∀ j, j < k → ∃ v, chunk_with_retry tf (chunks.getD j emptyStr) mr = .ok v) →
      chunk_with_retry tf (chunks.getD k emptyStr) mr = .error e →
      isClassified e = true →
      batchGo tf mr total chunks acc = .error (annotate e (acc.length + k) total) := by
  intro chunks
  induction chunks with
  | nil => intro total acc k e hk; simp at hk
  | cons c rest ih =>
    intro total acc k e hk hpre hfail hcl
    cases k with
    | zero =>
      have hc0 : (c :: rest).getD 0 emptyStr = c := rfl
      rw [hc0] at hfail
      simp only [batchGo]
      rw [hfail]
      simp [hcl]
    | succ k' =>
      rcases hpre 0 (by omega) with ⟨v0, hv0⟩
      have hc0 : (c :: rest).getD 0 emptyStr = c := rfl
      rw [hc0] at hv0
      simp only [batchGo]
      rw [hv0]
      have hrec := ih total (acc ++ [v0]) k' e (by simpa using hk)
        (fun j hj => by
           rcases hpre (j + 1) (by omega) with ⟨v, hv⟩
           exact ⟨v, by simpa [List.getD_cons_succ] using hv⟩)
        (by simpa [List.getD_cons_succ] using hfail) hcl
      have harith : (acc ++ [v0]).length + k' = acc.length + (k' + 1) := by
        simp
        omega
      rw [harith] at hrec
      exact hrec

/-- C4: when a chunk exhausts its retries with a recognized classification,
the batch stops and raises an error of the same classification whose
message carries the count of already completed chunks out of the total; the
completed results themselves are not part of the outcome. -/
theorem batch_partial_failure : ∀ (chunks : List String)
    (tf : String → Nat → Except PyErr String) (mr k : Nat) (e : PyErr),
    k < chunks.length →
    (∀ j, j < k → ∃ v, chunk_with_retry tf (chunks.getD j emptyStr) mr = .ok v) →
    chunk_with_retry tf (chunks.getD k emptyStr) mr = .error e →
    isClassified e = true →
    yandex_editor_batch_run chunks tf mr = .error (annotate e k chunks.length) ∧
    classOf (annotate e k chunks.length) = classOf e := by
  intro chunks tf mr k e hk hpre hfail hcl
  constructor
  · have hx := batchGo_spec tf mr chunks chunks.length [] k e hk hpre hfail hcl
    simpa [yandex_editor_batch_run] using hx
  · cases e with
    | api m => rfl
    | req m => rfl
    | other n m => simp [isClassified] at hcl

/-- The three chunks of the C4 witness. -/
def c4wA : String := "a"

/-- Second chunk (the failing one). -/
def c4wB : String := "b"

/-- Third chunk. -/
def c4wC : String := "c"

/-- The witness batch. -/
def c4wChunks : List String := [c4wA, c4wB, c4wC]

/-- The witness failure message. -/
def c4wMsg : String := "boom"

/-- A transform that fails (transport-classified) on the second chunk only,
at every attempt. -/
def tfW4 : String → Nat → Except PyErr String :=
  fun c _ => if c = c4wB then .error (.req c4wMsg) else .ok c

/-- Witness for C4: three chunks, the second fails every attempt; the batch
reports exactly 1 of 3 chunks completed, with the failing classification. -/
theorem batch_partial_failure_witness :
    1 < c4wChunks.length ∧
    (yandex_editor_batch_run c4wChunks tfW4 3 = .error (annotate (.req c4wMsg) 1 3) ∧
     classOf (annotate (.req c4wMsg) 1 3) = classOf (.req c4wMsg)) :=
  ⟨by decide,
   batch_partial_failure c4wChunks tfW4 3 1 (.req c4wMsg) (by decide)
     (fun j hj => by
        have hj0 : j = 0 := by omega
        subst hj0
        exact ⟨c4wA, rfl⟩)
     rfl rfl⟩

/-! ## Wrapping of transform failures (C10) -/

/-- C10 (amended): for non-empty input every failure of the built-in
transforms is a `YandexRequestError` — everything raised inside the `try`
(including internal `YandexAPIError`s) is re-wrapped; only the language
detector's `ValueError` on empty input (raised before the `try`) escapes
unwrapped, which is what the counterexample exhibits. -/
theorem transforms_wrap_request_error : ∀ (t : String)
    (rq : Except PyErr (Option (List String))) (rq2 : Except PyErr (Option String)),
    t ≠ "" →
    ((∃ v, yandex_translate t rq = .ok v) ∨
     (∃ m, yandex_translate t rq = .error (.req m))) ∧
    ((∃ v, yandex_editor_api t rq2 = .ok v) ∨
     (∃ m, yandex_editor_api t rq2 = .error (.req m))) := by
  intro t rq rq2 ht
  have hdet : ∃ p, detect_lang_pair t = .ok p := by
    unfold detect_lang_pair
    rw [if_neg ht]
    split_ifs <;> exact ⟨_, rfl⟩
  rcases hdet with ⟨p, hp⟩
  constructor
  · unfold yandex_translate
    rw [hp]
    cases htb : translateTryBody rq with
    | ok v => exact Or.inl ⟨v, rfl⟩
    | error e => exact Or.inr ⟨translateWrapMsg ++ msgOf e, rfl⟩
  · unfold yandex_editor_api
    rw [hp]
    cases htb : editorTryBody rq2 with
    | ok v => exact Or.inl ⟨v, rfl⟩
    | error e => exact Or.inr ⟨editorWrapMsg ++ msgOf e, rfl⟩

/-- A well-formed response payload, for the counterexample call. -/
def c10Resp : Except PyErr (Option (List String)) := .ok (some [c4wA])

/-- Counterexample to C10 as stated: on empty input `_yandex_translate`
raises the language detector's `ValueError` unwrapped — a failure that is
not a `YandexRequestError` — even though the request itself would have
succeeded. -/
theorem transforms_wrap_cex :
    yandex_translate emptyStr c10Resp = .error (.other valueErrorName emptyTextMsg) ∧
    classOf (.other valueErrorName emptyTextMsg) = ErrClass.other :=
  ⟨rfl, rfl⟩

/-- Non-empty witness input. -/
def c10wText : String := "ab"

/-- An unrecognized transport-machinery exception type. -/
def c10wName : String := "HTTPStatusError"

/-- Witness failure message. -/
def c10wMsg : String := "boom"

/-- A failing request for the translate witness. -/
def c10wReq : Except PyErr (Option (List String)) := .error (.other c10wName c10wMsg)

/-- A service-level failure for the editor witness. -/
def c10wReq2 : Except PyErr (Option String) := .error (.api c10wMsg)

/-- Witness for the amended C10. -/
theorem transforms_wrap_request_error_witness :
    c10wText ≠ "" ∧
    (((∃ v, yandex_translate c10wText c10wReq = .ok v) ∨
      (∃ m, yandex_translate c10wText c10wReq = .error (.req m))) ∧
     ((∃ v, yandex_editor_api c10wText c10wReq2 = .ok v) ∨
      (∃ m, yandex_editor_api c10wText c10wReq2 = .error (.req m)))) :=
  ⟨by decide, transforms_wrap_request_error c10wText c10wReq c10wReq2 (by decide)⟩

end YaEditor
